import Mathlib

/-! Shallow embedding of the `WS` WebSocket client class (frame
classification, request/response correlation with timeouts, close handling
and reconnection) and of the Result helpers from `utils.ts`, together with
proofs of properties about them.

The transport, the host timer registry and the promise machinery are
modelled by an explicit state machine: handler code becomes pure state
transformers that also return the list of observable effects they perform
(bus emissions, promise settlements, timer arming/clearing, socket sends),
in execution order. -/

namespace Kromer

/-- A parsed JSON value as delivered to the `onmessage` classifier.
Numbers are modelled as integers, which covers every numeric field this
protocol inspects (correlation ids). -/
inductive JVal where
  | null
  | bool (b : Bool)
  | num (n : Int)
  | str (s : String)
  | obj (fields : List (String × JVal))
deriving Repr, Inhabited

/-- First field with the given key, as JS property access on a parsed
JSON object (keys of a parsed object are distinct). -/
def findField : List (String × JVal) → String → Option JVal
  | [], _ => none
  | (k, v) :: fs, key => if k = key then some v else findField fs key

/-- JS property access `data.key` on a parsed value: absent (undefined)
unless the value is an object carrying the key. -/
def JVal.getField (v : JVal) (key : String) : Option JVal :=
  match v with
  | .obj fs => findField fs key
  | _ => none

/-- Replace the value at a key, keeping its position, as JS assignment
does on object spread. -/
def setFields : List (String × JVal) → String → JVal → List (String × JVal)
  | [], key, val => [(key, val)]
  | (k, v) :: fs, key, val =>
      if k = key then (k, val) :: fs else (k, v) :: setFields fs key val

/-- The spread-copy `{ ...message, id }`: a shallow copy of the object
with the field set. A non-object spreads to an object holding only the
new field (the `null`/`undefined` case; strings cannot reach this use). -/
def JVal.setField (v : JVal) (key : String) (val : JVal) : JVal :=
  match v with
  | .obj fs => .obj (setFields fs key val)
  | _ => .obj [(key, val)]

/-- `typeof data.key === "string" && data.key === val`, the strict string
comparison the classifier performs on frame fields. -/
def fieldIsStr (data : JVal) (key val : String) : Bool :=
  match data.getField key with
  | some (.str u) => u == val
  | _ => false

/-- The string content of a field when `typeof` is string. -/
def asStr : Option JVal → Option String
  | some (.str s) => some s
  | _ => none

/-- The numeric content of a field when `typeof` is number. -/
def getNum : Option JVal → Option Int
  | some (.num n) => some n
  | _ => none

/-- JS truthiness of a (possibly absent) property value of the parsed
frame. Note that the classifier's `if (data.ok)` never observes the
frame's `ok` field through this: `data` is the `tryCatch` Result proxy,
whose `get` trap intercepts the key `"ok"` (see `proxyOkTruthy`). This
predicate expresses what the check would have seen on the raw frame. -/
def truthy : Option JVal → Bool
  | none => false
  | some .null => false
  | some (.bool b) => b
  | some (.num n) => n != 0
  | some (.str s) => s != ""
  | some (.obj _) => true

/-- JS `String(v)` for the values that can reach `parseErrorMessage`:
a plain object without custom stringification prints `[object Object]`. -/
def jsString : JVal → String
  | .str s => s
  | .num n => toString n
  | .bool b => if b then "true" else "false"
  | .null => "null"
  | .obj _ => "[object Object]"

/-- A value passed to a promise `reject` continuation: either a JS
`Error` instance (carrying its message) or a plain object value such as
the synthetic closed-before-response frame built in `ws.onclose`. -/
inductive RejectVal where
  | errObj (message : String)
  | frame (v : JVal)
deriving Repr

/-- `parseErrorMessage` from `utils.ts`: string values pass through,
`Error` instances yield their message, objects yield a string `message`
field, else a string `error` field, else `String(err)`. -/
def parseErrorMessage : RejectVal → String
  | .errObj m => m
  | .frame v =>
      match v with
      | .str s => s
      | .obj _ =>
          match v.getField "message" with
          | some (.str m) => m
          | _ =>
              match v.getField "error" with
              | some (.str e) => e
              | _ => jsString v
      | _ => jsString v

/-- The observable shape of a `ResultLike` value built by `resultOk` /
`resultErr`: `ok()` is true exactly for `resultOk`, and `error()` is the
stored string exactly for `resultErr`. -/
inductive ResultV where
  | ok (v : JVal)
  | err (e : String)
deriving Repr

/-- The `ok()` method of a Result. -/
def ResultV.okFn : ResultV → Bool
  | .ok _ => true
  | .err _ => false

/-- The `error()` method of a Result. -/
def ResultV.errorFn : ResultV → Option String
  | .ok _ => none
  | .err e => some e

/-- How the promise a `request()` call awaits was settled. -/
inductive Settlement where
  | resolved (f : JVal)
  | rejected (rv : RejectVal)
deriving Repr

/-- The tail of `request()`: `await promise` followed by
`resultOk(value)` on resolution, and `catch (e) { resultErr(parseErrorMessage(e)) }`
on rejection. -/
def requestOutcome : Settlement → ResultV
  | .resolved f => .ok f
  | .rejected rv => .err (parseErrorMessage rv)

/-- One entry of the `pending` table: the continuations are represented
by settlement effects keyed by the request id; the entry keeps the armed
timer handle, and the message `type` captured by the timeout closure. -/
structure PendingEntry where
  reqType : String
  timerId : Nat
deriving Repr, DecidableEq

/-- An armed request-timeout timer: its handle, the captured request id
and message type, and the delay it was armed with. -/
structure TimeoutTimer where
  tid : Nat
  reqId : Nat
  reqType : String
  delay : Nat
deriving Repr, DecidableEq

/-- The payload of the `close` bus event, after `normalizeCloseEvent`. -/
structure ClosePayload where
  code : Option Int := none
  reason : Option String := none
  wasClean : Option Bool := none
deriving Repr, DecidableEq

/-- The connection options after constructor defaulting (`autoReconnect`
default true, `reconnectDelayMs` default 1000). -/
structure WSOptions where
  autoReconnect : Bool := true
  reconnectDelayMs : Nat := 1000
deriving Repr, DecidableEq

/-- The mutable fields of a `WS` instance, plus the host-owned timer
registry (armed request-timeout timers, armed reconnect timers, and a
counter handing out fresh positive timer handles). -/
structure WSState where
  nextId : Nat := 0
  pending : List (Nat × PendingEntry) := []
  timers : List TimeoutTimer := []
  reconnects : List Nat := []
  timerCtr : Nat := 0
  shouldReconnect : Bool := true
  hasWs : Bool := false
  wsOpen : Bool := false
  lastUpdate : Option String := none
deriving Repr, DecidableEq

/-- An observable action performed by the manager, in execution order. -/
inductive Effect where
  | emit (event : String) (payload : JVal)
  | emitOpenEv
  | emitCloseEv (cp : ClosePayload)
  | emitTransaction (raw : Option JVal)
  | settleResolve (id : Nat) (frame : JVal)
  | settleReject (id : Nat) (rv : RejectVal)
  | clearTimer (tid : Nat)
  | armTimeout (t : TimeoutTimer)
  | armReconnect (rtid : Nat) (delay : Nat)
  | allocId (id : Nat)
  | sendFrame (v : JVal)
  | openTransport
  | closeTransport
  | logParseFailure
deriving Repr

/-- `Map.get` keyed by the wire id (a JS number). -/
def mapGet (ps : List (Nat × PendingEntry)) (wid : Int) : Option (Nat × PendingEntry) :=
  ps.find? (fun p => (p.1 : Int) == wid)

/-- `Map.delete` of the entry keyed by the wire id (keys are unique, so
removing every match coincides with removing the single entry). -/
def mapDelete (ps : List (Nat × PendingEntry)) (wid : Int) : List (Nat × PendingEntry) :=
  ps.filter (fun p => !((p.1 : Int) == wid))

/-- `Map.set`: overwrite in place if present, else append. -/
def mapSet (ps : List (Nat × PendingEntry)) (k : Nat) (v : PendingEntry) : List (Nat × PendingEntry) :=
  if ps.any (fun p => p.1 == k) then
    ps.map (fun p => if p.1 == k then (k, v) else p)
  else
    ps ++ [(k, v)]

/-- The synthetic error value rejected into each pending request when the
transport closes: `{ type: "response", ok: false, id, responding_to:
"unknown", error: { message: "WebSocket closed before response" } }`. -/
def closedFrame (id : Nat) : JVal :=
  .obj [("type", .str "response"), ("ok", .bool false), ("id", .num id),
        ("responding_to", .str "unknown"),
        ("error", .obj [("message", .str "WebSocket closed before response")])]

/-- The timeout rejection message: `Request timed out: ${type} (${id})`. -/
def timeoutMsg (ty : String) (id : Nat) : String :=
  "Request timed out: " ++ ty ++ " (" ++ toString id ++ ")"

/-- The truthiness of `data.ok` in the classifier, where `data` is the
`ResultLike` proxy returned by `tryCatch(JSON.parse ...)`: the proxy's
`get` trap intercepts the property key `"ok"` and returns the method
closure `() => meta._ok` — a function object, which is always truthy —
instead of forwarding to the frame's `ok` field (which stays shadowed).
So `if (data.ok)` at the correlation site always takes the then branch,
whatever the frame says. -/
def proxyOkTruthy (_data : JVal) : Bool := true

/-- The emissions every `response`-typed frame with numeric id triggers
after correlation: the `response` bus event, the scoped
`response:<responding_to>` event when that tag is a string, and finally
the generic `message` event. -/
def respTailEmits (data : JVal) : List Effect :=
  Effect.emit "response" data ::
    ((match asStr (data.getField "responding_to") with
      | some rt => [Effect.emit ("response:" ++ rt) data]
      | none => []) ++ [Effect.emit "message" data])

/-- The `response`-frame branch of the classifier, reached when
`data.type === "response" && typeof data.id === "number"`: consume a
matching pending entry — clear its timer and settle its promise by the
truthiness of `data.ok`, which is the proxy's always-truthy `ok()`
method (`proxyOkTruthy`), so the entry is always resolved and the
`entry.reject` arm is dead code — then emit `response`, conditionally
`response:<responding_to>`, and finally the generic `message` event. -/
def responseCase (s : WSState) (data : JVal) (wid : Int) : WSState × List Effect :=
  match mapGet s.pending wid with
  | some (k, e) =>
      let settle :=
        if proxyOkTruthy data then Effect.settleResolve k data
        else Effect.settleReject k (.frame data)
      ({ s with pending := mapDelete s.pending wid,
                timers := if e.timerId == 0 then s.timers
                          else s.timers.filter (fun t => !(t.tid == e.timerId)) },
       (if e.timerId == 0 then [] else [Effect.clearTimer e.timerId]) ++
         settle :: respTailEmits data)
  | none => (s, respTailEmits data)

/-- The `ws.onmessage` classifier on a successfully parsed frame:
keepalive, transaction event, correlated response, named event, then the
generic `message` emission. -/
def handleMessage (s : WSState) (data : JVal) : WSState × List Effect :=
  if fieldIsStr data "type" "keepalive" then
    let s1 :=
      match asStr (data.getField "server_time") with
      | some st => { s with lastUpdate := some st }
      | none => s
    (s1, [Effect.emit "keepalive" data, Effect.emit "message" data])
  else if fieldIsStr data "type" "event" && fieldIsStr data "event" "transaction" then
    (s, [Effect.emitTransaction (data.getField "transaction"),
         Effect.emit "message" data])
  else
    match getNum (data.getField "id"), fieldIsStr data "type" "response" with
    | some wid, true => responseCase s data wid
    | _, _ =>
        match asStr (data.getField "type") with
        | some t => (s, [Effect.emit t data, Effect.emit "message" data])
        | none => (s, [Effect.emit "message" data])

/-- `ws.onmessage` including the `tryCatch(JSON.parse)` step: a parse
failure is logged and the frame dropped before any classification. -/
def handleRaw (s : WSState) (parsed : Option JVal) : WSState × List Effect :=
  match parsed with
  | none => (s, [Effect.logParseFailure])
  | some data => handleMessage s data

/-- The per-entry loop of `ws.onclose` over the pending table: clear the
entry's timer (when its handle is truthy) and reject its promise with the
synthetic closed-before-response frame. -/
def closeRejectEffs (ps : List (Nat × PendingEntry)) : List Effect :=
  ps.flatMap (fun p =>
    (if p.2.timerId == 0 then [] else [Effect.clearTimer p.2.timerId]) ++
      [Effect.settleReject p.1 (.frame (closedFrame p.1))])

/-- `ws.onclose`: clear each pending entry's timer and reject it with the
synthetic closed-before-response frame, clear the table, emit the `close`
bus event, then arm the reconnect timer when the flag is still set. -/
def handleClose (opts : WSOptions) (s : WSState) (cp : ClosePayload) : WSState × List Effect :=
  let rejectEffs := closeRejectEffs s.pending
  let timers1 := s.timers.filter (fun t => s.pending.all (fun p => !(p.2.timerId == t.tid)))
  if s.shouldReconnect then
    ({ s with pending := [], timers := timers1, wsOpen := false,
              reconnects := s.reconnects ++ [s.timerCtr + 1],
              timerCtr := s.timerCtr + 1 },
     rejectEffs ++ Effect.emitCloseEv cp ::
       [Effect.armReconnect (s.timerCtr + 1) opts.reconnectDelayMs])
  else
    ({ s with pending := [], timers := timers1, wsOpen := false },
     rejectEffs ++ [Effect.emitCloseEv cp])

/-- The synchronous outcome of a `request()` call: either it entered the
catch with a local validation error (and that string Result is returned),
or the id was allocated, the timer armed, the entry registered and the
payload sent, and the call now awaits its settlement. -/
inductive RequestStart where
  | failed (errMsg : String)
  | started (id : Nat) (tid : Nat)
deriving Repr, DecidableEq

/-- The synchronous prefix of `request(message, timeoutMs)`: validate the
`type` field, allocate `++this.nextId`, validate that the socket is open,
arm the timeout timer, register the pending entry, send the payload. -/
def requestCall (s : WSState) (msg : JVal) (timeoutMs : Nat) : WSState × List Effect × RequestStart :=
  match asStr (msg.getField "type") with
  | none => (s, [], .failed "Request message must include a string 'type'")
  | some ty =>
      let id := s.nextId + 1
      let s1 := { s with nextId := id }
      let payload := msg.setField "id" (.num id)
      if !(s1.hasWs && s1.wsOpen) then
        (s1, [Effect.allocId id], .failed "WebSocket is not open")
      else
        let tid := s1.timerCtr + 1
        let timer : TimeoutTimer := ⟨tid, id, ty, timeoutMs⟩
        ({ s1 with timerCtr := tid,
                   timers := s1.timers ++ [timer],
                   pending := mapSet s1.pending id ⟨ty, tid⟩ },
         [Effect.allocId id, Effect.armTimeout timer, Effect.sendFrame payload],
         .started id tid)

/-- An armed request-timeout timer fires: its closure deletes the table
entry for the captured id and rejects the promise with the timeout
`Error`. A cancelled or unknown handle never fires. -/
def fireTimeout (s : WSState) (tid : Nat) : WSState × List Effect :=
  match s.timers.find? (fun t => t.tid == tid) with
  | none => (s, [])
  | some t =>
      ({ s with timers := s.timers.filter (fun u => !(u.tid == tid)),
                pending := mapDelete s.pending t.reqId },
       [Effect.settleReject t.reqId (.errObj (timeoutMsg t.reqType t.reqId))])

/-- `close(code?, reason?)`: clear the auto-reconnect flag and ask the
transport to close. -/
def closeCall (s : WSState) : WSState × List Effect :=
  ({ s with shouldReconnect := false, wsOpen := false },
   if s.hasWs then [Effect.closeTransport] else [])

/-- `open()`: close any previous transport (errors swallowed), construct
a fresh one (initially connecting, not yet open) and wire its handlers.
The id counter and the pending table are not touched. -/
def openCall (s : WSState) : WSState × List Effect :=
  ({ s with hasWs := true, wsOpen := false },
   (if s.hasWs then [Effect.closeTransport] else []) ++ [Effect.openTransport])

/-- `ws.onopen`: the transport reports open and the `open` bus event is
emitted. -/
def handleOpenEv (s : WSState) : WSState × List Effect :=
  ({ s with wsOpen := true }, [Effect.emitOpenEv])

/-- An armed reconnect timer fires: `() => this.open()`, with no recheck
of the auto-reconnect flag. A cancelled or unknown handle never fires. -/
def reconnectFire (s : WSState) (rtid : Nat) : WSState × List Effect :=
  if s.reconnects.contains rtid then
    let s1 := { s with reconnects := s.reconnects.filter (fun r => !(r == rtid)) }
    openCall s1
  else
    (s, [])

/-- The frame `subscribe` builds for one event name. -/
def subMsg (e : String) : JVal :=
  .obj [("type", .str "subscribe"), ("event", .str e)]

/-- `subscribe(nameOrNames)`: one `request({ type: "subscribe", event },
15000)` per name, each discarding its Result. -/
def subscribeCall (s : WSState) : List String → WSState × List Effect
  | [] => (s, [])
  | e :: es =>
      let r1 := requestCall s (subMsg e) 15000
      let r2 := subscribeCall r1.1 es
      (r2.1, r1.2.1 ++ r2.2)

/-- The events the environment can drive the manager with: inbound
frames, transport transitions, timer firings, and the public calls. -/
inductive Ev where
  | recv (data : JVal)
  | recvBad
  | transportOpened
  | transportClosed (cp : ClosePayload)
  | timeoutFires (tid : Nat)
  | reconnectFires (rtid : Nat)
  | callRequest (msg : JVal) (timeoutMs : Nat)
  | callSubscribe (events : List String)
  | callClose
  | callOpen
deriving Repr

/-- One step of the manager under one environment event. -/
def step (opts : WSOptions) (s : WSState) : Ev → WSState × List Effect
  | .recv data => handleMessage s data
  | .recvBad => handleRaw s none
  | .transportOpened => handleOpenEv s
  | .transportClosed cp => handleClose opts s cp
  | .timeoutFires tid => fireTimeout s tid
  | .reconnectFires rtid => reconnectFire s rtid
  | .callRequest msg timeoutMs =>
      let r := requestCall s msg timeoutMs
      (r.1, r.2.1)
  | .callSubscribe events => subscribeCall s events
  | .callClose => closeCall s
  | .callOpen => openCall s

/-- Run a sequence of events, accumulating the effect trace. -/
def run (opts : WSOptions) (s : WSState) : List Ev → WSState × List Effect
  | [] => (s, [])
  | e :: es =>
      let r1 := step opts s e
      let r2 := run opts r1.1 es
      (r2.1, r1.2 ++ r2.2)

/-- The state of a freshly constructed `WS` instance (before `open()`):
id counter at 0, empty table, reconnect flag from the options. -/
def initState (opts : WSOptions) : WSState :=
  { nextId := 0, pending := [], timers := [], reconnects := [],
    timerCtr := 0, shouldReconnect := opts.autoReconnect,
    hasWs := false, wsOpen := false, lastUpdate := none }

/-- The options after constructor defaulting when the caller passes
none: auto-reconnect on, 1000 ms delay. -/
def defaultOpts : WSOptions := {}

/-- Whether an effect settles some request's promise. -/
def isSettle : Effect → Bool
  | .settleResolve _ _ => true
  | .settleReject _ _ => true
  | _ => false

/-- Whether an effect settles the promise of the given request id. -/
def isSettleOf (id : Nat) : Effect → Bool
  | .settleResolve k _ => k == id
  | .settleReject k _ => k == id
  | _ => false

/-- How many effects of a trace settle the given request id. -/
def settleCount (tr : List Effect) (id : Nat) : Nat :=
  tr.countP (isSettleOf id)

/-- The request ids allocated along a trace, in order. -/
def allocList (tr : List Effect) : List Nat :=
  tr.filterMap (fun e =>
    match e with
    | .allocId n => some n
    | _ => none)

/-- The payload of a send effect. -/
def getSend : Effect → Option JVal
  | .sendFrame v => some v
  | _ => none

/-- Whether an effect is a bus emission. -/
def isEmit : Effect → Bool
  | .emit _ _ => true
  | .emitTransaction _ => true
  | .emitOpenEv => true
  | .emitCloseEv _ => true
  | _ => false

/-- Whether an effect arms the reconnect timer. -/
def isArmReconnect : Effect → Bool
  | .armReconnect _ _ => true
  | _ => false

/-- Whether an effect records an id allocation. -/
def isAllocE : Effect → Bool
  | .allocId _ => true
  | _ => false

/-- The invariant tying a reachable manager state to the effect trace
that produced it: every request id is settled at most once, pending ids
are unsettled, table keys and timer handles are distinct and in
bijection, ids and handles are bounded by their counters, and the
allocated ids so far are exactly 1..nextId in order. -/
structure Inv (s : WSState) (tr : List Effect) : Prop where
  settleOnce : ∀ id, settleCount tr id ≤ 1
  pendingUnsettled : ∀ p ∈ s.pending, settleCount tr p.1 = 0
  pendingNodup : (s.pending.map Prod.fst).Nodup
  timerNodup : (s.timers.map TimeoutTimer.tid).Nodup
  timerPending : ∀ t ∈ s.timers, ∃ e, (t.reqId, e) ∈ s.pending ∧ e.timerId = t.tid
  pendingTimer : ∀ p ∈ s.pending, ∃ t ∈ s.timers, t.tid = p.2.timerId ∧ t.reqId = p.1
  pendingLe : ∀ p ∈ s.pending, p.1 ≤ s.nextId
  settleLe : ∀ id, settleCount tr id ≠ 0 → id ≤ s.nextId
  timerPos : ∀ t ∈ s.timers, 1 ≤ t.tid ∧ t.tid ≤ s.timerCtr
  allocSeq : allocList tr = List.range' 1 s.nextId

/-- The frames `subscribe` actually sends for the given names when the
counter stands at `n`: each carries the allocated id. -/
def subFrames (n : Nat) : List String → List JVal
  | [] => []
  | e :: es => (subMsg e).setField "id" (.num (n + 1)) :: subFrames (n + 1) es

/-- A well-formed request payload with no other fields. -/
def pingMsg : JVal := .obj [("type", .str "ping")]

/-- A keepalive frame whose `server_time` is a string that no JS engine
parses as a date (`new Date("not-a-date")` is an Invalid Date). -/
def kfBad : JVal :=
  .obj [("type", .str "keepalive"), ("server_time", .str "not-a-date")]

/-- Modelled from the spec's words "parseable as a timestamp" (spec
example "2024-01-01T00:00:00Z"): an ISO-8601 date or date-time string.
This claim-side predicate exists to state the parseability condition the
spec imposes; the source performs no such check. -/
def parseableTimestamp (s : String) : Bool :=
  match s.toList with
  | [y1, y2, y3, y4, '-', m1, m2, '-', d1, d2] =>
      [y1, y2, y3, y4, m1, m2, d1, d2].all Char.isDigit
  | [y1, y2, y3, y4, '-', m1, m2, '-', d1, d2, 'T',
     h1, h2, ':', mi1, mi2, ':', s1, s2, 'Z'] =>
      [y1, y2, y3, y4, m1, m2, d1, d2, h1, h2, mi1, mi2, s1, s2].all Char.isDigit
  | _ => false

/-- A run that opens the connection and then calls `subscribe(["blocks"])`. -/
def c3run : WSState × List Effect :=
  run defaultOpts (initState defaultOpts)
    [.callOpen, .transportOpened, .callSubscribe ["blocks"]]

/-- A response frame whose own `ok` field is `false`, answering a
`transfer` request with id 1. -/
def okFalseFrame : JVal :=
  .obj [("type", .str "response"), ("ok", .bool false), ("id", .num 1),
        ("responding_to", .str "transfer")]

/-- The state after an open connection suffers a transport close (arming
the reconnect timer with handle 1) and the caller then invokes
`close()`. -/
def c7state : WSState :=
  (run defaultOpts (initState defaultOpts)
    [.callOpen, .transportOpened, .transportClosed {}, .callClose]).1

/-- A reachable state with an open transport and nothing pending. -/
def openIdleState : WSState :=
  (run defaultOpts (initState defaultOpts) [.callOpen, .transportOpened]).1

/-- A state with an open transport and one pending request (id 1, timer
handle 1), as after one `request({type:"ping"})` call. -/
def onePendingState : WSState :=
  (run defaultOpts (initState defaultOpts)
    [.callOpen, .transportOpened, .callRequest pingMsg 15000]).1

/-- A run with two request calls on an open connection. -/
def c6evs : List Ev :=
  [.callOpen, .transportOpened, .callRequest pingMsg 500,
   .callRequest pingMsg 500]

/-- A response frame carrying no numeric `id`. -/
def c10frame : JVal :=
  .obj [("type", .str "response"), ("ok", .bool true),
        ("responding_to", .str "motd")]

section BasicLemmas

theorem asStr_eq_some {o : Option JVal} {v : String} :
    asStr o = some v ↔ o = some (.str v) := by
  cases o with
  | none => simp [asStr]
  | some j => cases j <;> simp [asStr]

theorem fieldIsStr_iff {d : JVal} {k v : String} :
    fieldIsStr d k v = true ↔ d.getField k = some (.str v) := by
  unfold fieldIsStr
  cases h : d.getField k with
  | none => simp
  | some j => cases j <;> simp

theorem fieldIsStr_false_of_other {d : JVal} {k v w : String}
    (h : d.getField k = some (.str v)) (hne : w ≠ v) :
    fieldIsStr d k w = false := by
  rw [Bool.eq_false_iff]
  intro hc
  rw [fieldIsStr_iff, h] at hc
  exact hne (JVal.str.inj (Option.some.inj hc)).symm

theorem asStr_of_fieldIsStr {d : JVal} {k v : String}
    (h : fieldIsStr d k v = true) : asStr (d.getField k) = some v := by
  rw [fieldIsStr_iff] at h
  rw [h]
  rfl

end BasicLemmas

section MapLemmas

theorem mapGet_mapDelete (ps : List (Nat × PendingEntry)) (wid : Int) :
    mapGet (mapDelete ps wid) wid = none := by
  unfold mapGet mapDelete
  rw [List.find?_eq_none]
  intro x hx
  have h := (List.mem_filter.mp hx).2
  simp only [Bool.not_eq_true'] at h
  simp [h]

theorem mapGet_some {ps : List (Nat × PendingEntry)} {wid : Int}
    {p : Nat × PendingEntry} (h : mapGet ps wid = some p) :
    p ∈ ps ∧ (p.1 : Int) = wid := by
  refine ⟨List.mem_of_find?_eq_some h, ?_⟩
  have := List.find?_some h
  simpa using this

theorem mem_mapDelete {ps : List (Nat × PendingEntry)} {wid : Int}
    {p : Nat × PendingEntry} :
    p ∈ mapDelete ps wid ↔ p ∈ ps ∧ ¬((p.1 : Int) = wid) := by
  unfold mapDelete
  rw [List.mem_filter]
  simp

theorem mapSet_fresh {ps : List (Nat × PendingEntry)} {k : Nat}
    (h : ∀ p ∈ ps, p.1 ≠ k) (v : PendingEntry) :
    mapSet ps k v = ps ++ [(k, v)] := by
  unfold mapSet
  rw [if_neg]
  intro hc
  obtain ⟨p, hp, he⟩ := List.any_eq_true.mp hc
  exact h p hp (by simpa using he)

end MapLemmas

section RequestLemmas

theorem requestCall_badType {msg : JVal} (s : WSState) (tms : Nat)
    (h : asStr (msg.getField "type") = none) :
    requestCall s msg tms =
      (s, [], .failed "Request message must include a string 'type'") := by
  unfold requestCall
  rw [h]

theorem requestCall_closed {msg : JVal} {ty : String} (s : WSState) (tms : Nat)
    (h : asStr (msg.getField "type") = some ty)
    (hcl : (s.hasWs && s.wsOpen) = false) :
    requestCall s msg tms =
      ({ s with nextId := s.nextId + 1 }, [Effect.allocId (s.nextId + 1)],
       .failed "WebSocket is not open") := by
  unfold requestCall
  rw [h]
  simp [hcl]

theorem requestCall_open {msg : JVal} {ty : String} (s : WSState) (tms : Nat)
    (h : asStr (msg.getField "type") = some ty)
    (hw : s.hasWs = true) (ho : s.wsOpen = true) :
    requestCall s msg tms =
      ({ s with nextId := s.nextId + 1, timerCtr := s.timerCtr + 1,
                timers := s.timers ++ [⟨s.timerCtr + 1, s.nextId + 1, ty, tms⟩],
                pending := mapSet s.pending (s.nextId + 1) ⟨ty, s.timerCtr + 1⟩ },
       [Effect.allocId (s.nextId + 1),
        Effect.armTimeout ⟨s.timerCtr + 1, s.nextId + 1, ty, tms⟩,
        Effect.sendFrame (msg.setField "id" (.num (s.nextId + 1)))],
       .started (s.nextId + 1) (s.timerCtr + 1)) := by
  unfold requestCall
  rw [h]
  simp [hw, ho]

end RequestLemmas

section ClassifierLemmas

theorem handleMessage_keepalive {data : JVal} (s : WSState)
    (h : fieldIsStr data "type" "keepalive" = true) :
    handleMessage s data =
      ((match asStr (data.getField "server_time") with
        | some st => { s with lastUpdate := some st }
        | none => s),
       [Effect.emit "keepalive" data, Effect.emit "message" data]) := by
  unfold handleMessage
  rw [h]
  simp

theorem handleMessage_response {data : JVal} {wid : Int} (s : WSState)
    (hty : fieldIsStr data "type" "response" = true)
    (hid : getNum (data.getField "id") = some wid) :
    handleMessage s data = responseCase s data wid := by
  have hty2 := fieldIsStr_iff.mp hty
  have h1 : fieldIsStr data "type" "keepalive" = false :=
    fieldIsStr_false_of_other hty2 (by decide)
  have h2 : fieldIsStr data "type" "event" = false :=
    fieldIsStr_false_of_other hty2 (by decide)
  unfold handleMessage
  rw [h1, h2, hid, hty]
  simp

end ClassifierLemmas

/-- Claim C10 (confirmed): a frame of type `response` whose `id` is
missing or not a number falls through to the named-event branch: it is
emitted as a `response` bus event with the raw frame, followed only by
the generic `message` event; the state — in particular the pending
table — is untouched, nothing is settled, and no `response:<tag>` event
is emitted. -/
theorem response_without_numeric_id_falls_through (s : WSState) (data : JVal)
    (hty : fieldIsStr data "type" "response" = true)
    (hid : getNum (data.getField "id") = none) :
    handleMessage s data =
      (s, [Effect.emit "response" data, Effect.emit "message" data]) := by
  have hty2 := fieldIsStr_iff.mp hty
  have h1 : fieldIsStr data "type" "keepalive" = false :=
    fieldIsStr_false_of_other hty2 (by decide)
  have h2 : fieldIsStr data "type" "event" = false :=
    fieldIsStr_false_of_other hty2 (by decide)
  have h3 : asStr (data.getField "type") = some "response" :=
    asStr_of_fieldIsStr hty
  unfold handleMessage
  rw [h1, h2, hid, h3]
  simp

/-- Witness for C10 at a concrete id-less response frame. -/
theorem response_without_numeric_id_falls_through_witness :
    handleMessage (initState defaultOpts) c10frame =
      (initState defaultOpts,
       [Effect.emit "response" c10frame, Effect.emit "message" c10frame]) :=
  response_without_numeric_id_falls_through (initState defaultOpts) c10frame
    (by decide) (by decide)

/-- Claim C8, amended (corrected): for a keepalive frame the manager
records `server_time` as the last-observed server time whenever that
field is present and a string — even when it is not parseable as a
timestamp, in which case an invalid timestamp value is stored — and
performs exactly one `keepalive` bus emission carrying the full frame
followed by the generic `message` emission, with no `transaction` or
`response` emission and no change to the pending table. -/
theorem keepalive_classification (s : WSState) (data : JVal)
    (h : fieldIsStr data "type" "keepalive" = true) :
    (∀ st, asStr (data.getField "server_time") = some st →
      (handleMessage s data).1 = { s with lastUpdate := some st })
    ∧ (asStr (data.getField "server_time") = none →
      (handleMessage s data).1 = s)
    ∧ (handleMessage s data).2 =
        [Effect.emit "keepalive" data, Effect.emit "message" data] := by
  rw [handleMessage_keepalive s h]
  refine ⟨?_, ?_, rfl⟩
  · intro st hst
    rw [hst]
  · intro hst
    rw [hst]

/-- Witness for the amended C8 at a concrete keepalive frame. -/
theorem keepalive_classification_witness :
    (∀ st, asStr (kfBad.getField "server_time") = some st →
      (handleMessage (initState defaultOpts) kfBad).1 =
        { initState defaultOpts with lastUpdate := some st })
    ∧ (asStr (kfBad.getField "server_time") = none →
      (handleMessage (initState defaultOpts) kfBad).1 = initState defaultOpts)
    ∧ (handleMessage (initState defaultOpts) kfBad).2 =
        [Effect.emit "keepalive" kfBad, Effect.emit "message" kfBad] :=
  keepalive_classification (initState defaultOpts) kfBad (by decide)

/-- Counterexample for C8 as stated: the frame `kfBad` carries a
`server_time` that is not parseable as a timestamp, yet the manager
records it as the last-observed server time (the source assigns
`new Date(data.server_time)` whenever the field is a string, with no
parseability check). -/
theorem keepalive_records_unparseable_server_time :
    (handleMessage (initState defaultOpts) kfBad).1.lastUpdate = some "not-a-date"
    ∧ parseableTimestamp "not-a-date" = false
    ∧ parseableTimestamp "2024-01-01T00:00:00Z" = true :=
  ⟨rfl, by decide, by decide⟩

/-- Claim C5, amended (corrected): `request` fails without sending
anything when `message.type` is missing or not a string, or when the
socket is not open; the type validation precedes id allocation, but the
open-socket check follows it, so a call that fails only the open check
still consumes the next id. When both validations pass, the id is
attached to a shallow copy of the message, the timer armed for
`timeoutMs`, and the payload sent. -/
theorem request_validation_order (s : WSState) (msg : JVal) (tms : Nat) :
    (asStr (msg.getField "type") = none →
      requestCall s msg tms =
        (s, [], .failed "Request message must include a string 'type'"))
    ∧ (∀ ty, asStr (msg.getField "type") = some ty →
        (s.hasWs && s.wsOpen) = false →
        (requestCall s msg tms).2.2 = .failed "WebSocket is not open"
        ∧ (requestCall s msg tms).1.nextId = s.nextId + 1
        ∧ (requestCall s msg tms).1.pending = s.pending
        ∧ (requestCall s msg tms).2.1.filterMap getSend = [])
    ∧ (∀ ty, asStr (msg.getField "type") = some ty →
        s.hasWs = true → s.wsOpen = true →
        (requestCall s msg tms).2.2 = .started (s.nextId + 1) (s.timerCtr + 1)
        ∧ (requestCall s msg tms).2.1 =
            [Effect.allocId (s.nextId + 1),
             Effect.armTimeout ⟨s.timerCtr + 1, s.nextId + 1, ty, tms⟩,
             Effect.sendFrame (msg.setField "id" (.num (s.nextId + 1)))]
        ∧ (requestCall s msg tms).1.pending =
            mapSet s.pending (s.nextId + 1) ⟨ty, s.timerCtr + 1⟩) := by
  refine ⟨fun h => requestCall_badType s tms h, ?_, ?_⟩
  · intro ty hty hcl
    rw [requestCall_closed s tms hty hcl]
    exact ⟨rfl, rfl, rfl, rfl⟩
  · intro ty hty hw ho
    rw [requestCall_open s tms hty hw ho]
    exact ⟨rfl, rfl, rfl⟩

/-- Witness for the amended C5, exercising the closed-socket path. -/
theorem request_validation_order_witness :
    (requestCall (initState defaultOpts) pingMsg 15000).2.2 =
        .failed "WebSocket is not open"
    ∧ (requestCall (initState defaultOpts) pingMsg 15000).1.nextId =
        (initState defaultOpts).nextId + 1
    ∧ (requestCall (initState defaultOpts) pingMsg 15000).1.pending =
        (initState defaultOpts).pending
    ∧ (requestCall (initState defaultOpts) pingMsg 15000).2.1.filterMap getSend
        = [] :=
  (request_validation_order (initState defaultOpts) pingMsg 15000).2.1
    "ping" (by decide) (by decide)

/-- Counterexample for C5 as stated: with a valid `type` but no open
socket, the call fails locally and sends nothing, yet the id counter is
still advanced — the id is allocated before the open-socket validation,
not after both validations pass. -/
theorem request_allocates_id_despite_closed_socket :
    (requestCall (initState defaultOpts) pingMsg 15000).2.2 =
        .failed "WebSocket is not open"
    ∧ (initState defaultOpts).nextId = 0
    ∧ (requestCall (initState defaultOpts) pingMsg 15000).1.nextId = 1
    ∧ (requestCall (initState defaultOpts) pingMsg 15000).2.1.filterMap getSend
        = [] :=
  ⟨rfl, rfl, rfl, rfl⟩

/-- Claim C3, amended (corrected): `subscribe` sends one
`{type:"subscribe", event:<name>}` frame per name, but through the
tracked `request` path: each send allocates the next request id, attaches
it to the frame, and creates a pending-request correlation entry with the
default 15000 timeout. It performs no bus emission and (the code calls
no `on`) registers no local event-bus handler. -/
theorem subscribe_goes_through_request (s : WSState) (es : List String)
    (hw : s.hasWs = true) (ho : s.wsOpen = true)
    (hb : ∀ p ∈ s.pending, p.1 ≤ s.nextId) :
    (subscribeCall s es).1.nextId = s.nextId + es.length
    ∧ (subscribeCall s es).1.pending.length = s.pending.length + es.length
    ∧ (subscribeCall s es).2.filterMap getSend = subFrames s.nextId es
    ∧ allocList (subscribeCall s es).2 = List.range' (s.nextId + 1) es.length
    ∧ (subscribeCall s es).2.filter isEmit = [] := by
  induction es generalizing s with
  | nil => simp [subscribeCall, subFrames, allocList]
  | cons e rest ih =>
    have hty : asStr ((subMsg e).getField "type") = some "subscribe" := rfl
    have hre := requestCall_open s 15000 hty hw ho
    have hfresh : ∀ p ∈ s.pending, p.1 ≠ s.nextId + 1 := by
      intro p hp
      have := hb p hp
      omega
    have hset := mapSet_fresh hfresh (⟨"subscribe", s.timerCtr + 1⟩ : PendingEntry)
    simp only [subscribeCall]
    rw [hre]
    have ih2 := ih
      { s with
          nextId := s.nextId + 1
          timerCtr := s.timerCtr + 1
          timers := s.timers ++ [⟨s.timerCtr + 1, s.nextId + 1, "subscribe", 15000⟩]
          pending := mapSet s.pending (s.nextId + 1) ⟨"subscribe", s.timerCtr + 1⟩ }
      hw ho (by
        rw [hset]
        intro p hp
        rcases List.mem_append.mp hp with h | h
        · have := hb p h
          simp only
          omega
        · simp at h
          simp [h])
    refine ⟨?_, ?_, ?_, ?_, ?_⟩
    · rw [ih2.1]
      simp only [List.length_cons]
      omega
    · rw [ih2.2.1, hset]
      simp only [List.length_append, List.length_cons, List.length_nil]
      omega
    · rw [List.filterMap_append, ih2.2.2.1]
      rfl
    · rw [allocList, List.filterMap_append]
      have := ih2.2.2.2.1
      rw [allocList] at this
      rw [this]
      rfl
    · rw [List.filter_append, ih2.2.2.2.2]
      rfl

/-- Witness for the amended C3: one name, open socket. -/
theorem subscribe_goes_through_request_witness :
    (subscribeCall openIdleState ["blocks"]).1.nextId = openIdleState.nextId + 1
    ∧ (subscribeCall openIdleState ["blocks"]).1.pending.length =
        openIdleState.pending.length + 1
    ∧ (subscribeCall openIdleState ["blocks"]).2.filterMap getSend =
        subFrames openIdleState.nextId ["blocks"]
    ∧ allocList (subscribeCall openIdleState ["blocks"]).2 =
        List.range' (openIdleState.nextId + 1) 1
    ∧ (subscribeCall openIdleState ["blocks"]).2.filter isEmit = [] :=
  subscribe_goes_through_request openIdleState ["blocks"] rfl rfl (by decide)

/-- Counterexample for C3 as stated: after `subscribe(["blocks"])` on an
open connection, an id was allocated (the counter advanced and the trace
records the allocation), a pending-request entry exists, and the frame
that went out carries the injected id — none of which the untracked
`send` path would do. -/
theorem subscribe_is_not_fire_and_forget :
    c3run.1.nextId = 1
    ∧ c3run.1.pending = [(1, ⟨"subscribe", 1⟩)]
    ∧ c3run.2.filterMap getSend =
        [JVal.obj [("type", .str "subscribe"), ("event", .str "blocks"),
                   ("id", .num 1)]]
    ∧ allocList c3run.2 = [1] :=
  ⟨rfl, rfl, rfl, rfl⟩

/-- Claim C4 (code bug): at the failing input — a pending request
(id 1) answered by the frame `{type:"response", ok:false, id:1,
responding_to:"transfer"}` — the frame's own `ok` field is falsy, yet
the classifier clears the timer, removes the entry, and resolves the
pending promise with the frame: `data.ok` reads the `tryCatch` proxy's
always-truthy `ok()` method, never the frame's field, so the
`entry.reject` arm the claim describes (and the source visibly intends
at part_000 line 116) is dead code. The `request()` call therefore
succeeds — its Result has `ok()` true and carries the frame — instead
of failing with the frame readable from the rejection value. -/
theorem ok_false_response_resolves_request :
    truthy (okFalseFrame.getField "ok") = false
    ∧ proxyOkTruthy okFalseFrame = true
    ∧ (handleMessage onePendingState okFalseFrame).2 =
        [Effect.clearTimer 1, Effect.settleResolve 1 okFalseFrame,
         Effect.emit "response" okFalseFrame,
         Effect.emit "response:transfer" okFalseFrame,
         Effect.emit "message" okFalseFrame]
    ∧ mapGet (handleMessage onePendingState okFalseFrame).1.pending 1 = none
    ∧ requestOutcome (.resolved okFalseFrame) = ResultV.ok okFalseFrame
    ∧ (requestOutcome (.resolved okFalseFrame)).okFn = true :=
  ⟨rfl, rfl, rfl, rfl, rfl, rfl⟩

/-- Claim C9 (code bug): `request` indeed never throws and always
returns a Result — the type-validation path returns its specific error
Result, and the timeout and connection-close rejections yield `ok()`
false with the string errors `parseErrorMessage` derives — but the
claim's server-`ok:false` conjunct fails on the code: at the failing
input the only settlement the classifier performs is a resolve, so the
call returns `ok()` true with the frame (and `error()` undefined) for
an `ok:false` response as well; success is not the only path yielding
`ok()` true. -/
theorem request_result_paths_with_dead_reject :
    (requestCall (initState defaultOpts) (JVal.obj []) 15000).2.2 =
        RequestStart.failed "Request message must include a string 'type'"
    ∧ (requestOutcome (.rejected (.errObj (timeoutMsg "ping" 1)))).okFn = false
    ∧ (requestOutcome (.rejected (.errObj (timeoutMsg "ping" 1)))).errorFn =
        some (timeoutMsg "ping" 1)
    ∧ (requestOutcome (.rejected (.frame (closedFrame 1)))).okFn = false
    ∧ (requestOutcome (.rejected (.frame (closedFrame 1)))).errorFn =
        some "[object Object]"
    ∧ (handleMessage onePendingState okFalseFrame).2.filter isSettle =
        [Effect.settleResolve 1 okFalseFrame]
    ∧ (requestOutcome (.resolved okFalseFrame)).okFn = true
    ∧ (requestOutcome (.resolved okFalseFrame)).errorFn = none :=
  ⟨rfl, rfl, rfl, rfl, rfl, rfl, rfl, rfl⟩

/-- Claim C1 (confirmed): when the close callback fires, every pending
entry's timer is cleared and its promise rejected with the synthetic
`{type:"response", ok:false, id, responding_to:"unknown", ...}` value,
the table ends empty, and every one of those settlements sits strictly
before the `close` bus emission in the effect sequence (the segment
before the `close` emission contains no bus emission at all, and the
segment after it contains no settlement). -/
theorem close_rejects_all_pending_before_close_event
    (opts : WSOptions) (s : WSState) (cp : ClosePayload)
    (ht : ∀ p ∈ s.pending, p.2.timerId ≠ 0) :
    ∃ pre post,
      (handleClose opts s cp).2 = pre ++ Effect.emitCloseEv cp :: post
      ∧ (∀ p ∈ s.pending,
          Effect.settleReject p.1 (.frame (closedFrame p.1)) ∈ pre
          ∧ Effect.clearTimer p.2.timerId ∈ pre)
      ∧ (∀ x ∈ pre, isEmit x = false)
      ∧ (∀ x ∈ post, isSettle x = false)
      ∧ (handleClose opts s cp).1.pending = [] := by
  refine ⟨closeRejectEffs s.pending,
    (if s.shouldReconnect then
      [Effect.armReconnect (s.timerCtr + 1) opts.reconnectDelayMs] else []),
    ?_, ?_, ?_, ?_, ?_⟩
  · unfold handleClose
    cases hr : s.shouldReconnect <;> simp [hr]
  · intro p hp
    constructor
    · exact List.mem_flatMap.mpr ⟨p, hp, by simp⟩
    · refine List.mem_flatMap.mpr ⟨p, hp, ?_⟩
      have h0 : (p.2.timerId == 0) = false := by
        simpa using ht p hp
      rw [h0]
      simp
  · intro x hx
    obtain ⟨p, hp, hx2⟩ := List.mem_flatMap.mp hx
    rcases List.mem_append.mp hx2 with h | h
    · split at h
      · cases h
      · rw [List.mem_singleton.mp h]
        rfl
    · rw [List.mem_singleton.mp h]
      rfl
  · intro x hx
    split at hx
    · rw [List.mem_singleton.mp hx]
      rfl
    · cases hx
  · unfold handleClose
    cases hr : s.shouldReconnect <;> simp [hr]

/-- Witness for C1 at a concrete state with one pending request. -/
theorem close_rejects_all_pending_before_close_event_witness :
    ∃ pre post,
      (handleClose defaultOpts onePendingState (⟨none, none, none⟩ : ClosePayload)).2 =
        pre ++ Effect.emitCloseEv (⟨none, none, none⟩ : ClosePayload) :: post
      ∧ (∀ p ∈ onePendingState.pending,
          Effect.settleReject p.1 (.frame (closedFrame p.1)) ∈ pre
          ∧ Effect.clearTimer p.2.timerId ∈ pre)
      ∧ (∀ x ∈ pre, isEmit x = false)
      ∧ (∀ x ∈ post, isSettle x = false)
      ∧ (handleClose defaultOpts onePendingState (⟨none, none, none⟩ : ClosePayload)).1.pending = [] :=
  close_rejects_all_pending_before_close_event defaultOpts onePendingState
    (⟨none, none, none⟩ : ClosePayload) (by decide)

section FlagLemmas

theorem handleMessage_frame_fields (s : WSState) (data : JVal) :
    (handleMessage s data).1.nextId = s.nextId
    ∧ (handleMessage s data).1.timerCtr = s.timerCtr
    ∧ (handleMessage s data).1.reconnects = s.reconnects
    ∧ (handleMessage s data).1.shouldReconnect = s.shouldReconnect
    ∧ (handleMessage s data).1.hasWs = s.hasWs
    ∧ (handleMessage s data).1.wsOpen = s.wsOpen := by
  unfold handleMessage responseCase
  repeat' split
  all_goals exact ⟨rfl, rfl, rfl, rfl, rfl, rfl⟩

theorem requestCall_other_fields (s : WSState) (msg : JVal) (tms : Nat) :
    (requestCall s msg tms).1.shouldReconnect = s.shouldReconnect
    ∧ (requestCall s msg tms).1.hasWs = s.hasWs
    ∧ (requestCall s msg tms).1.wsOpen = s.wsOpen
    ∧ (requestCall s msg tms).1.reconnects = s.reconnects := by
  cases hty : asStr (msg.getField "type") with
  | none =>
    rw [requestCall_badType s tms hty]
    exact ⟨rfl, rfl, rfl, rfl⟩
  | some ty =>
    cases hcl : (s.hasWs && s.wsOpen) with
    | false =>
      rw [requestCall_closed s tms hty hcl]
      exact ⟨rfl, rfl, rfl, rfl⟩
    | true =>
      obtain ⟨hw, ho⟩ := Bool.and_eq_true_iff.mp hcl
      rw [requestCall_open s tms hty hw ho]
      exact ⟨rfl, rfl, rfl, rfl⟩

theorem subscribeCall_other_fields (s : WSState) (es : List String) :
    (subscribeCall s es).1.shouldReconnect = s.shouldReconnect := by
  induction es generalizing s with
  | nil => rfl
  | cons e rest ih =>
    simp only [subscribeCall]
    rw [ih]
    exact (requestCall_other_fields s (subMsg e) 15000).1

theorem fireTimeout_other_fields (s : WSState) (tid : Nat) :
    (fireTimeout s tid).1.shouldReconnect = s.shouldReconnect
    ∧ (fireTimeout s tid).1.nextId = s.nextId
    ∧ (fireTimeout s tid).1.timerCtr = s.timerCtr := by
  unfold fireTimeout
  repeat' split
  all_goals exact ⟨rfl, rfl, rfl⟩

theorem handleClose_shouldReconnect (opts : WSOptions) (s : WSState) (cp : ClosePayload) :
    (handleClose opts s cp).1.shouldReconnect = s.shouldReconnect := by
  unfold handleClose
  split <;> rfl

theorem reconnectFire_shouldReconnect (s : WSState) (rtid : Nat) :
    (reconnectFire s rtid).1.shouldReconnect = s.shouldReconnect := by
  unfold reconnectFire openCall
  split <;> rfl

theorem closeRejectEffs_not_arm {ps : List (Nat × PendingEntry)} {x : Effect}
    (hx : x ∈ closeRejectEffs ps) : isArmReconnect x = false := by
  obtain ⟨p, _, hx2⟩ := List.mem_flatMap.mp hx
  rcases List.mem_append.mp hx2 with h | h
  · split at h
    · cases h
    · rw [List.mem_singleton.mp h]
      rfl
  · rw [List.mem_singleton.mp h]
    rfl

end FlagLemmas

theorem handleClose_flag_true (opts : WSOptions) (s : WSState) (cp : ClosePayload)
    (hr : s.shouldReconnect = true) :
    handleClose opts s cp =
      ({ s with
           pending := []
           timers := s.timers.filter
             (fun t => s.pending.all (fun p => !(p.2.timerId == t.tid)))
           wsOpen := false
           reconnects := s.reconnects ++ [s.timerCtr + 1]
           timerCtr := s.timerCtr + 1 },
       closeRejectEffs s.pending ++
         [Effect.emitCloseEv cp,
          Effect.armReconnect (s.timerCtr + 1) opts.reconnectDelayMs]) := by
  unfold handleClose
  rw [hr]
  simp

theorem handleClose_flag_false (opts : WSOptions) (s : WSState) (cp : ClosePayload)
    (hr : s.shouldReconnect = false) :
    handleClose opts s cp =
      ({ s with
           pending := []
           timers := s.timers.filter
             (fun t => s.pending.all (fun p => !(p.2.timerId == t.tid)))
           wsOpen := false },
       closeRejectEffs s.pending ++ [Effect.emitCloseEv cp]) := by
  unfold handleClose
  rw [hr]
  simp

/-- Claim C7, amended (corrected): a transport close with the
auto-reconnect flag true arms exactly one reopen timer, with the
configured fixed delay (default 1000); a transport-initiated close never
changes the flag, and `close()` is the only event that clears it, which
prevents any future reconnect timer from being armed. However, an
already-armed reconnect timer is never cancelled: its callback reopens
the transport without rechecking the flag, so a `close()` issued after
the close event armed the timer does not prevent that reopen. -/
theorem reconnect_supervisor (opts : WSOptions) (s : WSState) (cp : ClosePayload) :
    (s.shouldReconnect = true →
      (handleClose opts s cp).2.countP isArmReconnect = 1
      ∧ Effect.armReconnect (s.timerCtr + 1) opts.reconnectDelayMs ∈
          (handleClose opts s cp).2)
    ∧ (s.shouldReconnect = false →
      (handleClose opts s cp).2.countP isArmReconnect = 0)
    ∧ (handleClose opts s cp).1.shouldReconnect = s.shouldReconnect
    ∧ (closeCall s).1.shouldReconnect = false
    ∧ (∀ ev, (step opts s ev).1.shouldReconnect = false →
        s.shouldReconnect = false ∨ ev = Ev.callClose)
    ∧ (∀ rtid, s.reconnects.contains rtid = true →
        Effect.openTransport ∈ (reconnectFire s rtid).2)
    ∧ defaultOpts.reconnectDelayMs = 1000 := by
  have hzero : (closeRejectEffs s.pending).countP isArmReconnect = 0 :=
    List.countP_eq_zero.mpr (fun x hx => by
      rw [closeRejectEffs_not_arm hx]
      exact Bool.false_ne_true)
  refine ⟨?_, ?_, handleClose_shouldReconnect opts s cp, rfl, ?_, ?_, rfl⟩
  · intro hr
    rw [handleClose_flag_true opts s cp hr]
    constructor
    · simp only [List.countP_append, hzero]
      rfl
    · simp
  · intro hr
    rw [handleClose_flag_false opts s cp hr]
    simp only [List.countP_append, hzero]
    rfl
  · intro ev hev
    cases ev with
    | recv data =>
        simp only [step] at hev
        rw [(handleMessage_frame_fields s data).2.2.2.1] at hev
        exact Or.inl hev
    | recvBad => exact Or.inl hev
    | transportOpened => exact Or.inl hev
    | transportClosed cp2 =>
        simp only [step] at hev
        rw [handleClose_shouldReconnect opts s cp2] at hev
        exact Or.inl hev
    | timeoutFires tid =>
        simp only [step] at hev
        rw [(fireTimeout_other_fields s tid).1] at hev
        exact Or.inl hev
    | reconnectFires rtid =>
        simp only [step] at hev
        rw [reconnectFire_shouldReconnect s rtid] at hev
        exact Or.inl hev
    | callRequest msg tms =>
        rw [show (step opts s (.callRequest msg tms)).1 = (requestCall s msg tms).1 from rfl,
          (requestCall_other_fields s msg tms).1] at hev
        exact Or.inl hev
    | callSubscribe es =>
        rw [show (step opts s (.callSubscribe es)).1 = (subscribeCall s es).1 from rfl,
          subscribeCall_other_fields s es] at hev
        exact Or.inl hev
    | callClose => exact Or.inr rfl
    | callOpen => exact Or.inl hev
  · intro rtid hr
    unfold reconnectFire
    rw [hr]
    simp [openCall]

/-- Witness for the amended C7 at a state with the flag set and one
armed reconnect timer. -/
theorem reconnect_supervisor_witness :
    (openIdleState.shouldReconnect = true →
      (handleClose defaultOpts openIdleState (⟨none, none, none⟩ : ClosePayload)).2.countP
          isArmReconnect = 1
      ∧ Effect.armReconnect (openIdleState.timerCtr + 1) defaultOpts.reconnectDelayMs ∈
          (handleClose defaultOpts openIdleState (⟨none, none, none⟩ : ClosePayload)).2)
    ∧ (openIdleState.shouldReconnect = false →
      (handleClose defaultOpts openIdleState (⟨none, none, none⟩ : ClosePayload)).2.countP
          isArmReconnect = 0)
    ∧ (handleClose defaultOpts openIdleState (⟨none, none, none⟩ : ClosePayload)).1.shouldReconnect =
        openIdleState.shouldReconnect
    ∧ (closeCall openIdleState).1.shouldReconnect = false
    ∧ (∀ ev, (step defaultOpts openIdleState ev).1.shouldReconnect = false →
        openIdleState.shouldReconnect = false ∨ ev = Ev.callClose)
    ∧ (∀ rtid, openIdleState.reconnects.contains rtid = true →
        Effect.openTransport ∈ (reconnectFire openIdleState rtid).2)
    ∧ defaultOpts.reconnectDelayMs = 1000 :=
  reconnect_supervisor defaultOpts openIdleState (⟨none, none, none⟩ : ClosePayload)

/-- Counterexample for C7 as stated: after an abrupt transport close has
armed the reconnect timer (handle 1), the caller invokes `close()` — the
flag is now false — yet firing that timer still closes the stale handle
and reopens the transport: `close()` does not prevent the scheduled
reopen. -/
theorem close_does_not_cancel_armed_reconnect :
    c7state.shouldReconnect = false
    ∧ c7state.reconnects = [1]
    ∧ (step defaultOpts c7state (.reconnectFires 1)).2 =
        [Effect.closeTransport, Effect.openTransport] :=
  ⟨rfl, rfl, rfl⟩

section CountLemmas

theorem isSettle_of_isSettleOf {id : Nat} {x : Effect}
    (h : isSettleOf id x = true) : isSettle x = true := by
  cases x <;> simp [isSettleOf, isSettle] at h ⊢

theorem settleCount_append (tr1 tr2 : List Effect) (id : Nat) :
    settleCount (tr1 ++ tr2) id = settleCount tr1 id + settleCount tr2 id :=
  List.countP_append _ _ _

theorem settleCount_cons (x : Effect) (tr : List Effect) (id : Nat) :
    settleCount (x :: tr) id =
      settleCount tr id + (if isSettleOf id x = true then 1 else 0) :=
  List.countP_cons _ _ _

theorem settleCount_of_no_settle {tr : List Effect}
    (h : ∀ x ∈ tr, isSettle x = false) (id : Nat) : settleCount tr id = 0 :=
  List.countP_eq_zero.mpr (fun x hx hc => by
    have h2 := isSettle_of_isSettleOf hc
    rw [h x hx] at h2
    exact Bool.false_ne_true h2)

theorem allocList_append (tr1 tr2 : List Effect) :
    allocList (tr1 ++ tr2) = allocList tr1 ++ allocList tr2 :=
  List.filterMap_append _ _ _

theorem allocList_of_no_alloc {tr : List Effect}
    (h : ∀ x ∈ tr, isAllocE x = false) : allocList tr = [] :=
  List.filterMap_eq_nil_iff.mpr (fun x hx => by
    have := h x hx
    cases x <;> first | rfl | exact absurd this (by simp [isAllocE]))

theorem pendingKeyUnique {ps : List (Nat × PendingEntry)}
    (h : (ps.map Prod.fst).Nodup) {k : Nat} {a b : PendingEntry}
    (ha : (k, a) ∈ ps) (hb : (k, b) ∈ ps) : a = b := by
  have := List.inj_on_of_nodup_map h ha hb rfl
  exact congrArg Prod.snd this

theorem timerUnique {ts : List TimeoutTimer}
    (h : (ts.map TimeoutTimer.tid).Nodup) {t1 t2 : TimeoutTimer}
    (ha : t1 ∈ ts) (hb : t2 ∈ ts) (he : t1.tid = t2.tid) : t1 = t2 :=
  List.inj_on_of_nodup_map h ha hb he

end CountLemmas

section InvariantLemmas

theorem inv_extend {s : WSState} {tr : List Effect} (hInv : Inv s tr)
    (s1 : WSState) (tr2 : List Effect)
    (hp : s1.pending = s.pending) (ht : s1.timers = s.timers)
    (hn : s1.nextId = s.nextId) (hc : s.timerCtr ≤ s1.timerCtr)
    (hs : ∀ x ∈ tr2, isSettle x = false)
    (ha : allocList tr2 = []) :
    Inv s1 (tr ++ tr2) := by
  have hz : ∀ id, settleCount tr2 id = 0 := settleCount_of_no_settle hs
  constructor
  · intro id
    rw [settleCount_append, hz, Nat.add_zero]
    exact hInv.settleOnce id
  · intro p hp2
    rw [hp] at hp2
    rw [settleCount_append, hz, Nat.add_zero]
    exact hInv.pendingUnsettled p hp2
  · rw [hp]
    exact hInv.pendingNodup
  · rw [ht]
    exact hInv.timerNodup
  · rw [ht, hp]
    exact hInv.timerPending
  · rw [hp, ht]
    exact hInv.pendingTimer
  · rw [hp, hn]
    exact hInv.pendingLe
  · intro id hne
    rw [settleCount_append, hz, Nat.add_zero] at hne
    rw [hn]
    exact hInv.settleLe id hne
  · rw [ht]
    intro t htm
    exact ⟨(hInv.timerPos t htm).1, le_trans (hInv.timerPos t htm).2 hc⟩
  · rw [allocList_append, ha, List.append_nil, hn]
    exact hInv.allocSeq

theorem responseCase_none {s : WSState} {wid : Int} (data : JVal)
    (hfind : mapGet s.pending wid = none) :
    responseCase s data wid = (s, respTailEmits data) := by
  unfold responseCase
  rw [hfind]

theorem responseCase_some {s : WSState} {wid : Int} {k : Nat} {e : PendingEntry}
    (data : JVal) (hfind : mapGet s.pending wid = some (k, e)) :
    responseCase s data wid =
      ({ s with
           pending := mapDelete s.pending wid
           timers := if e.timerId == 0 then s.timers
                     else s.timers.filter (fun t => !(t.tid == e.timerId)) },
       (if e.timerId == 0 then [] else [Effect.clearTimer e.timerId]) ++
         Effect.settleResolve k data :: respTailEmits data) := by
  unfold responseCase
  rw [hfind]
  rfl

theorem respTailEmits_no_settle (data : JVal) :
    ∀ x ∈ respTailEmits data, isSettle x = false := by
  intro x hx
  unfold respTailEmits at hx
  cases hrt : asStr (data.getField "responding_to") <;> rw [hrt] at hx <;>
    simp only [List.nil_append, List.cons_append, List.mem_cons,
      List.mem_singleton, List.not_mem_nil, or_false] at hx
  · rcases hx with h | h <;> subst h <;> rfl
  · rcases hx with h | h | h <;> subst h <;> rfl

theorem respTailEmits_no_alloc (data : JVal) :
    ∀ x ∈ respTailEmits data, isAllocE x = false := by
  intro x hx
  unfold respTailEmits at hx
  cases hrt : asStr (data.getField "responding_to") <;> rw [hrt] at hx <;>
    simp only [List.nil_append, List.cons_append, List.mem_cons,
      List.mem_singleton, List.not_mem_nil, or_false] at hx
  · rcases hx with h | h <;> subst h <;> rfl
  · rcases hx with h | h | h <;> subst h <;> rfl

theorem settleCount_respEffs (data : JVal) (k m id : Nat) :
    settleCount ((if m == 0 then [] else [Effect.clearTimer m]) ++
      Effect.settleResolve k data :: respTailEmits data) id =
    if k = id then 1 else 0 := by
  rw [settleCount_append]
  have h1 : settleCount (if m == 0 then [] else [Effect.clearTimer m]) id = 0 := by
    split <;> rfl
  have h2 : settleCount (respTailEmits data) id = 0 :=
    settleCount_of_no_settle (respTailEmits_no_settle data) id
  have h3 : isSettleOf id (Effect.settleResolve k data) = (k == id) := rfl
  rw [h1, settleCount_cons, h2, h3]
  cases hk : (k == id) with
  | false =>
    have hne : ¬(k = id) := by simpa using hk
    rw [if_neg hne]
    rfl
  | true =>
    have heq : k = id := by simpa using hk
    rw [if_pos heq]
    rfl

theorem allocList_respEffs (data : JVal) (k m : Nat) :
    allocList ((if m == 0 then [] else [Effect.clearTimer m]) ++
      Effect.settleResolve k data :: respTailEmits data) = [] := by
  apply allocList_of_no_alloc
  intro x hx
  rcases List.mem_append.mp hx with h | h
  · split at h
    · cases h
    · rw [List.mem_singleton.mp h]
      rfl
  · rcases List.mem_cons.mp h with h2 | h2
    · subst h2
      rfl
    · exact respTailEmits_no_alloc data x h2

theorem mapDelete_fst_sublist (ps : List (Nat × PendingEntry)) (wid : Int) :
    List.Sublist ((mapDelete ps wid).map Prod.fst) (ps.map Prod.fst) :=
  List.Sublist.map Prod.fst (List.filter_sublist ps)

theorem inv_responseCase {s : WSState} {tr : List Effect} (hInv : Inv s tr)
    (data : JVal) (wid : Int) :
    Inv (responseCase s data wid).1 (tr ++ (responseCase s data wid).2) := by
  cases hfind : mapGet s.pending wid with
  | none =>
    rw [responseCase_none data hfind]
    exact inv_extend hInv _ _ rfl rfl rfl (le_refl _)
      (respTailEmits_no_settle data)
      (allocList_of_no_alloc (respTailEmits_no_alloc data))
  | some ke =>
    obtain ⟨k, e⟩ := ke
    have hmem : (k, e) ∈ s.pending := (mapGet_some hfind).1
    have hwid : ((k : Nat) : Int) = wid := (mapGet_some hfind).2
    have hez : ¬(e.timerId = 0) := by
      obtain ⟨t, htm, htid, _⟩ := hInv.pendingTimer (k, e) hmem
      have h1 := (hInv.timerPos t htm).1
      have htid2 : t.tid = e.timerId := htid
      omega
    have hezb : (e.timerId == 0) = false := by
      simpa using hez
    rw [responseCase_some data hfind]
    have hcnt := settleCount_respEffs data k e.timerId
    constructor
    · intro id
      rw [settleCount_append, hcnt]
      by_cases hk : k = id
      · rw [if_pos hk]
        subst hk
        rw [hInv.pendingUnsettled (k, e) hmem]
      · rw [if_neg hk, Nat.add_zero]
        exact hInv.settleOnce id
    · intro p hp2
      simp only at hp2
      have hp3 := mem_mapDelete.mp hp2
      rw [settleCount_append, hcnt, if_neg, Nat.add_zero]
      · exact hInv.pendingUnsettled p hp3.1
      · intro hkp
        exact hp3.2 (by rw [← hkp, hwid])
    · simp only
      exact hInv.pendingNodup.sublist (mapDelete_fst_sublist s.pending wid)
    · simp only [hezb, Bool.false_eq_true, if_false]
      exact hInv.timerNodup.sublist
        (List.Sublist.map TimeoutTimer.tid (List.filter_sublist s.timers))
    · simp only [hezb, Bool.false_eq_true, if_false]
      intro t htm
      have htm2 := List.mem_filter.mp htm
      have htne : ¬(t.tid = e.timerId) := by
        have h4 := htm2.2
        simp at h4
        exact h4
      obtain ⟨e2, he2, he2t⟩ := hInv.timerPending t htm2.1
      have hrne : ¬(t.reqId = k) := by
        intro hc
        rw [hc] at he2
        have h5 := pendingKeyUnique hInv.pendingNodup he2 hmem
        rw [h5] at he2t
        exact htne he2t.symm
      exact ⟨e2, mem_mapDelete.mpr ⟨he2, by
        rw [← hwid]
        intro hc
        exact hrne (by exact_mod_cast hc)⟩, he2t⟩
    · intro p hp2
      simp only at hp2
      have hp3 := mem_mapDelete.mp hp2
      obtain ⟨t, htm, htid, hrid⟩ := hInv.pendingTimer p hp3.1
      have hpne : ¬(p.1 = k) := by
        intro hc
        exact hp3.2 (by rw [hc, hwid])
      refine ⟨t, ?_, htid, hrid⟩
      simp only [hezb, Bool.false_eq_true, if_false]
      rw [List.mem_filter]
      refine ⟨htm, ?_⟩
      simp only [Bool.not_eq_eq_eq_not, Bool.not_true, beq_eq_false_iff_ne]
      intro hc
      obtain ⟨tk, htk, htkid, htkr⟩ := hInv.pendingTimer (k, e) hmem
      have h6 : t = tk := timerUnique hInv.timerNodup htm htk (by rw [hc, htkid])
      rw [h6] at hrid
      exact hpne (hrid ▸ htkr)
    · intro p hp2
      simp only at hp2
      exact hInv.pendingLe p (mem_mapDelete.mp hp2).1
    · intro id hne
      rw [settleCount_append, hcnt] at hne
      by_cases hk : k = id
      · subst hk
        exact hInv.pendingLe (k, e) hmem
      · rw [if_neg hk, Nat.add_zero] at hne
        exact hInv.settleLe id hne
    · simp only [hezb, Bool.false_eq_true, if_false]
      intro t htm
      exact hInv.timerPos t (List.mem_filter.mp htm).1
    · rw [allocList_append, allocList_respEffs, List.append_nil]
      exact hInv.allocSeq

theorem handleMessage_cases (s : WSState) (data : JVal) :
    ((handleMessage s data).1.pending = s.pending
      ∧ (handleMessage s data).1.timers = s.timers
      ∧ (handleMessage s data).1.nextId = s.nextId
      ∧ (handleMessage s data).1.timerCtr = s.timerCtr
      ∧ (∀ x ∈ (handleMessage s data).2, isSettle x = false)
      ∧ allocList (handleMessage s data).2 = [])
    ∨ (∃ wid, getNum (data.getField "id") = some wid
        ∧ handleMessage s data = responseCase s data wid) := by
  unfold handleMessage
  split
  · left
    split
    · exact ⟨rfl, rfl, rfl, rfl, by intro x hx; fin_cases hx <;> rfl, rfl⟩
    · exact ⟨rfl, rfl, rfl, rfl, by intro x hx; fin_cases hx <;> rfl, rfl⟩
  · split
    · left
      exact ⟨rfl, rfl, rfl, rfl, by intro x hx; fin_cases hx <;> rfl, rfl⟩
    · split
      · next wid heq1 heq2 =>
          right
          exact ⟨wid, heq1, rfl⟩
      · split
        · left
          exact ⟨rfl, rfl, rfl, rfl, by intro x hx; fin_cases hx <;> rfl, rfl⟩
        · left
          exact ⟨rfl, rfl, rfl, rfl, by intro x hx; fin_cases hx <;> rfl, rfl⟩

theorem inv_handleMessage {s : WSState} {tr : List Effect} (hInv : Inv s tr)
    (data : JVal) :
    Inv (handleMessage s data).1 (tr ++ (handleMessage s data).2) := by
  rcases handleMessage_cases s data with ⟨hp, ht, hn, hc, hs, ha⟩ | ⟨wid, _, heq⟩
  · exact inv_extend hInv _ _ hp ht hn (le_of_eq hc.symm) hs ha
  · rw [heq]
    exact inv_responseCase hInv data wid

theorem range'_one_snoc (n : Nat) :
    List.range' 1 n ++ [n + 1] = List.range' 1 (n + 1) := by
  rw [List.range'_concat]
  congr 1
  simp [Nat.add_comm]

theorem inv_requestCall {s : WSState} {tr : List Effect} (hInv : Inv s tr)
    (msg : JVal) (tms : Nat) :
    Inv (requestCall s msg tms).1 (tr ++ (requestCall s msg tms).2.1) := by
  cases hty : asStr (msg.getField "type") with
  | none =>
    rw [requestCall_badType s tms hty, List.append_nil]
    exact hInv
  | some ty =>
    cases hcl : (s.hasWs && s.wsOpen) with
    | false =>
      rw [requestCall_closed s tms hty hcl]
      have hz : ∀ id, settleCount [Effect.allocId (s.nextId + 1)] id = 0 :=
        fun id => rfl
      constructor
      · intro id
        rw [settleCount_append, hz, Nat.add_zero]
        exact hInv.settleOnce id
      · intro p hp2
        rw [settleCount_append, hz, Nat.add_zero]
        exact hInv.pendingUnsettled p hp2
      · exact hInv.pendingNodup
      · exact hInv.timerNodup
      · exact hInv.timerPending
      · exact hInv.pendingTimer
      · intro p hp2
        have := hInv.pendingLe p hp2
        simp only
        omega
      · intro id hne
        rw [settleCount_append, hz, Nat.add_zero] at hne
        have := hInv.settleLe id hne
        simp only
        omega
      · exact hInv.timerPos
      · rw [allocList_append, hInv.allocSeq]
        exact range'_one_snoc s.nextId
    | true =>
      obtain ⟨hw, ho⟩ := Bool.and_eq_true_iff.mp hcl
      rw [requestCall_open s tms hty hw ho]
      have hfresh : ∀ p ∈ s.pending, p.1 ≠ s.nextId + 1 := by
        intro p hp
        have := hInv.pendingLe p hp
        omega
      rw [mapSet_fresh hfresh]
      have hz : ∀ id, settleCount
          [Effect.allocId (s.nextId + 1),
           Effect.armTimeout ⟨s.timerCtr + 1, s.nextId + 1, ty, tms⟩,
           Effect.sendFrame (msg.setField "id" (.num (s.nextId + 1)))] id = 0 :=
        fun id => rfl
      have hnew0 : settleCount tr (s.nextId + 1) = 0 := by
        by_contra hc
        have := hInv.settleLe (s.nextId + 1) hc
        omega
      constructor
      · intro id
        rw [settleCount_append, hz, Nat.add_zero]
        exact hInv.settleOnce id
      · intro p hp2
        rw [settleCount_append, hz, Nat.add_zero]
        simp only at hp2
        rcases List.mem_append.mp hp2 with h | h
        · exact hInv.pendingUnsettled p h
        · rw [List.mem_singleton.mp h]
          exact hnew0
      · simp only [List.map_append]
        rw [List.nodup_append]
        refine ⟨hInv.pendingNodup, List.nodup_singleton _, ?_⟩
        intro a ha hb
        obtain ⟨p, hp, hpa⟩ := List.mem_map.mp ha
        have hb2 : a = s.nextId + 1 := by
          simpa using hb
        have := hInv.pendingLe p hp
        rw [hb2] at hpa
        omega
      · simp only [List.map_append]
        rw [List.nodup_append]
        refine ⟨hInv.timerNodup, List.nodup_singleton _, ?_⟩
        intro a ha hb
        obtain ⟨t, htm, hta⟩ := List.mem_map.mp ha
        have hb2 : a = s.timerCtr + 1 := by
          simpa using hb
        have := (hInv.timerPos t htm).2
        rw [hb2] at hta
        omega
      · intro t htm
        simp only at htm
        rcases List.mem_append.mp htm with h | h
        · obtain ⟨e, hep, hetid⟩ := hInv.timerPending t h
          exact ⟨e, List.mem_append_left _ hep, hetid⟩
        · rw [List.mem_singleton.mp h]
          exact ⟨⟨ty, s.timerCtr + 1⟩,
            List.mem_append_right _ (List.mem_singleton.mpr rfl), rfl⟩
      · intro p hp2
        simp only at hp2
        rcases List.mem_append.mp hp2 with h | h
        · obtain ⟨t, htm, htid, hrid⟩ := hInv.pendingTimer p h
          exact ⟨t, List.mem_append_left _ htm, htid, hrid⟩
        · rw [List.mem_singleton.mp h]
          exact ⟨⟨s.timerCtr + 1, s.nextId + 1, ty, tms⟩,
            List.mem_append_right _ (List.mem_singleton.mpr rfl), rfl, rfl⟩
      · intro p hp2
        simp only at hp2 ⊢
        rcases List.mem_append.mp hp2 with h | h
        · have := hInv.pendingLe p h
          omega
        · rw [List.mem_singleton.mp h]
      · intro id hne
        rw [settleCount_append, hz, Nat.add_zero] at hne
        have := hInv.settleLe id hne
        simp only
        omega
      · intro t htm
        simp only at htm ⊢
        rcases List.mem_append.mp htm with h | h
        · have := hInv.timerPos t h
          omega
        · rw [List.mem_singleton.mp h]
          show 1 ≤ s.timerCtr + 1 ∧ s.timerCtr + 1 ≤ s.timerCtr + 1
          omega
      · rw [allocList_append, hInv.allocSeq]
        exact range'_one_snoc s.nextId

theorem inv_subscribeCall {s : WSState} {tr : List Effect} (hInv : Inv s tr)
    (es : List String) :
    Inv (subscribeCall s es).1 (tr ++ (subscribeCall s es).2) := by
  induction es generalizing s tr with
  | nil =>
    rw [show subscribeCall s [] = (s, []) from rfl, List.append_nil]
    exact hInv
  | cons e rest ih =>
    simp only [subscribeCall]
    rw [← List.append_assoc]
    exact ih (inv_requestCall hInv (subMsg e) 15000)

theorem settleCount_single (r : Nat) (rv : RejectVal) (id : Nat) :
    settleCount [Effect.settleReject r rv] id = if r = id then 1 else 0 := by
  have h : isSettleOf id (Effect.settleReject r rv) = (r == id) := rfl
  rw [settleCount_cons, h]
  cases hk : (r == id) with
  | false =>
    have hne : ¬(r = id) := by simpa using hk
    rw [if_neg hne]
    rfl
  | true =>
    have heq : r = id := by simpa using hk
    rw [if_pos heq]
    rfl

theorem inv_fireTimeout {s : WSState} {tr : List Effect} (hInv : Inv s tr)
    (tid : Nat) :
    Inv (fireTimeout s tid).1 (tr ++ (fireTimeout s tid).2) := by
  cases hfind : s.timers.find? (fun u => u.tid == tid) with
  | none =>
    rw [show fireTimeout s tid = (s, []) from by unfold fireTimeout; rw [hfind],
      List.append_nil]
    exact hInv
  | some t =>
    rw [show fireTimeout s tid =
      ({ s with
           timers := s.timers.filter (fun u => !(u.tid == tid))
           pending := mapDelete s.pending (t.reqId : Int) },
       [Effect.settleReject t.reqId
          (.errObj (timeoutMsg t.reqType t.reqId))]) from by
      unfold fireTimeout; rw [hfind]]
    have htmem : t ∈ s.timers := List.mem_of_find?_eq_some hfind
    have htid : t.tid = tid := by
      have := List.find?_some hfind
      simpa using this
    obtain ⟨e, hep, hetid⟩ := hInv.timerPending t htmem
    have hcnt := settleCount_single t.reqId
      (.errObj (timeoutMsg t.reqType t.reqId))
    constructor
    · intro id
      rw [settleCount_append, hcnt]
      by_cases hk : t.reqId = id
      · rw [if_pos hk]
        subst hk
        rw [hInv.pendingUnsettled (t.reqId, e) hep]
      · rw [if_neg hk, Nat.add_zero]
        exact hInv.settleOnce id
    · intro p hp2
      simp only at hp2
      have hp3 := mem_mapDelete.mp hp2
      have hpne : ¬(t.reqId = p.1) := by
        intro hc
        exact hp3.2 (by rw [← hc])
      rw [settleCount_append, hcnt, if_neg hpne, Nat.add_zero]
      exact hInv.pendingUnsettled p hp3.1
    · simp only
      exact hInv.pendingNodup.sublist (mapDelete_fst_sublist s.pending _)
    · simp only
      exact hInv.timerNodup.sublist
        (List.Sublist.map TimeoutTimer.tid (List.filter_sublist s.timers))
    · intro u hum
      simp only at hum ⊢
      have hum2 := List.mem_filter.mp hum
      have hune : ¬(u.tid = tid) := by
        have h4 := hum2.2
        simp at h4
        exact h4
      obtain ⟨e2, he2, he2t⟩ := hInv.timerPending u hum2.1
      have hrne : ¬(u.reqId = t.reqId) := by
        intro hc
        rw [hc] at he2
        have h5 := pendingKeyUnique hInv.pendingNodup he2 hep
        rw [h5] at he2t
        have h7 : u.tid = t.tid := he2t.symm.trans hetid
        exact hune (h7.trans htid)
      refine ⟨e2, mem_mapDelete.mpr ⟨he2, ?_⟩, he2t⟩
      intro hc
      exact hrne (by exact_mod_cast hc)
    · intro p hp2
      simp only at hp2 ⊢
      have hp3 := mem_mapDelete.mp hp2
      obtain ⟨u, hum, hutid, hurid⟩ := hInv.pendingTimer p hp3.1
      have hpne : ¬(p.1 = t.reqId) := by
        intro hc
        exact hp3.2 (by rw [hc])
      refine ⟨u, ?_, hutid, hurid⟩
      rw [List.mem_filter]
      refine ⟨hum, ?_⟩
      simp only [Bool.not_eq_eq_eq_not, Bool.not_true, beq_eq_false_iff_ne]
      intro hc
      have h6 : u = t := timerUnique hInv.timerNodup hum htmem (by rw [hc, htid])
      rw [h6] at hurid
      exact hpne (hurid ▸ rfl)
    · intro p hp2
      simp only at hp2
      exact hInv.pendingLe p (mem_mapDelete.mp hp2).1
    · intro id hne
      rw [settleCount_append, hcnt] at hne
      by_cases hk : t.reqId = id
      · subst hk
        exact hInv.pendingLe (t.reqId, e) hep
      · rw [if_neg hk, Nat.add_zero] at hne
        exact hInv.settleLe id hne
    · intro u hum
      simp only at hum
      exact hInv.timerPos u (List.mem_filter.mp hum).1
    · rw [allocList_append, hInv.allocSeq,
        show allocList [Effect.settleReject t.reqId
          (.errObj (timeoutMsg t.reqType t.reqId))] = [] from rfl,
        List.append_nil]

theorem closeRejectEffs_no_alloc {ps : List (Nat × PendingEntry)} :
    ∀ x ∈ closeRejectEffs ps, isAllocE x = false := by
  intro x hx
  obtain ⟨p, _, hx2⟩ := List.mem_flatMap.mp hx
  rcases List.mem_append.mp hx2 with h | h
  · split at h
    · cases h
    · rw [List.mem_singleton.mp h]
      rfl
  · rw [List.mem_singleton.mp h]
    rfl

theorem settleCount_closeRejectEffs (ps : List (Nat × PendingEntry)) (id : Nat) :
    settleCount (closeRejectEffs ps) id = (ps.map Prod.fst).count id := by
  induction ps with
  | nil => rfl
  | cons p rest ih =>
    have h : closeRejectEffs (p :: rest) =
        ((if p.2.timerId == 0 then [] else [Effect.clearTimer p.2.timerId]) ++
          [Effect.settleReject p.1 (.frame (closedFrame p.1))]) ++
          closeRejectEffs rest := by
      simp [closeRejectEffs]
    have h1 : settleCount (if p.2.timerId == 0 then []
        else [Effect.clearTimer p.2.timerId]) id = 0 := by
      split <;> rfl
    rw [h, settleCount_append, settleCount_append, ih, h1,
      settleCount_single p.1 _ id, List.map_cons, List.count_cons]
    by_cases hp : p.1 = id <;> simp [hp] <;> omega

theorem inv_closed_state {s : WSState} {tr : List Effect} (hInv : Inv s tr)
    (tr2 : List Effect) (s1 : WSState)
    (hp : s1.pending = []) (ht : s1.timers = []) (hn : s1.nextId = s.nextId)
    (hcount : ∀ id, settleCount tr2 id = (s.pending.map Prod.fst).count id)
    (hal : allocList tr2 = []) :
    Inv s1 (tr ++ tr2) := by
  constructor
  · intro id
    rw [settleCount_append, hcount]
    by_cases hm : id ∈ s.pending.map Prod.fst
    · obtain ⟨p, hpm, hpa⟩ := List.mem_map.mp hm
      have h0 : settleCount tr id = 0 := hpa ▸ hInv.pendingUnsettled p hpm
      have hle1 := List.nodup_iff_count_le_one.mp hInv.pendingNodup id
      omega
    · rw [List.count_eq_zero.mpr hm]
      have := hInv.settleOnce id
      omega
  · intro p hp2
    rw [hp] at hp2
    exact absurd hp2 (List.not_mem_nil p)
  · rw [hp]
    exact List.nodup_nil
  · rw [ht]
    exact List.nodup_nil
  · rw [ht]
    intro t htm
    exact absurd htm (List.not_mem_nil t)
  · rw [hp]
    intro p hp2
    exact absurd hp2 (List.not_mem_nil p)
  · rw [hp]
    intro p hp2
    exact absurd hp2 (List.not_mem_nil p)
  · intro id hne
    rw [settleCount_append, hcount] at hne
    rw [hn]
    by_cases hm : id ∈ s.pending.map Prod.fst
    · obtain ⟨p, hpm, hpa⟩ := List.mem_map.mp hm
      exact hpa ▸ hInv.pendingLe p hpm
    · rw [List.count_eq_zero.mpr hm, Nat.add_zero] at hne
      exact hInv.settleLe id hne
  · rw [ht]
    intro t htm
    exact absurd htm (List.not_mem_nil t)
  · rw [allocList_append, hal, List.append_nil, hn]
    exact hInv.allocSeq

theorem inv_handleClose (opts : WSOptions) {s : WSState} {tr : List Effect}
    (hInv : Inv s tr) (cp : ClosePayload) :
    Inv (handleClose opts s cp).1 (tr ++ (handleClose opts s cp).2) := by
  have hte : s.timers.filter
      (fun t => s.pending.all (fun p => !(p.2.timerId == t.tid))) = [] := by
    rw [List.eq_nil_iff_forall_not_mem]
    intro t htm
    have h2 := List.mem_filter.mp htm
    obtain ⟨e, hep, hetid⟩ := hInv.timerPending t h2.1
    have h3 := List.all_eq_true.mp h2.2 (t.reqId, e) hep
    simp at h3
    exact h3 hetid
  have hnoal : allocList (closeRejectEffs s.pending) = [] :=
    allocList_of_no_alloc closeRejectEffs_no_alloc
  cases hr : s.shouldReconnect with
  | true =>
    refine inv_closed_state hInv _ _ ?_ ?_ ?_ ?_ ?_
    · rw [handleClose_flag_true opts s cp hr]
    · rw [handleClose_flag_true opts s cp hr]
      exact hte
    · rw [handleClose_flag_true opts s cp hr]
    · intro id
      rw [handleClose_flag_true opts s cp hr]
      show settleCount (closeRejectEffs s.pending ++
        [Effect.emitCloseEv cp,
         Effect.armReconnect (s.timerCtr + 1) opts.reconnectDelayMs]) id = _
      rw [settleCount_append, settleCount_closeRejectEffs,
        settleCount_of_no_settle (by intro x hx; fin_cases hx <;> rfl) id,
        Nat.add_zero]
    · rw [handleClose_flag_true opts s cp hr]
      show allocList (closeRejectEffs s.pending ++
        [Effect.emitCloseEv cp,
         Effect.armReconnect (s.timerCtr + 1) opts.reconnectDelayMs]) = _
      rw [allocList_append, hnoal]
      rfl
  | false =>
    refine inv_closed_state hInv _ _ ?_ ?_ ?_ ?_ ?_
    · rw [handleClose_flag_false opts s cp hr]
    · rw [handleClose_flag_false opts s cp hr]
      exact hte
    · rw [handleClose_flag_false opts s cp hr]
    · intro id
      rw [handleClose_flag_false opts s cp hr]
      show settleCount (closeRejectEffs s.pending ++ [Effect.emitCloseEv cp]) id = _
      rw [settleCount_append, settleCount_closeRejectEffs,
        settleCount_of_no_settle (by intro x hx; fin_cases hx <;> rfl) id,
        Nat.add_zero]
    · rw [handleClose_flag_false opts s cp hr]
      show allocList (closeRejectEffs s.pending ++ [Effect.emitCloseEv cp]) = _
      rw [allocList_append, hnoal]
      rfl

theorem inv_step (opts : WSOptions) {s : WSState} {tr : List Effect}
    (hInv : Inv s tr) (ev : Ev) :
    Inv (step opts s ev).1 (tr ++ (step opts s ev).2) := by
  cases ev with
  | recv data => exact inv_handleMessage hInv data
  | recvBad =>
    exact inv_extend hInv _ _ rfl rfl rfl (Nat.le_refl _)
      (by intro x hx; fin_cases hx <;> rfl) rfl
  | transportOpened =>
    exact inv_extend hInv _ _ rfl rfl rfl (Nat.le_refl _)
      (by intro x hx; fin_cases hx <;> rfl) rfl
  | transportClosed cp => exact inv_handleClose opts hInv cp
  | timeoutFires tid => exact inv_fireTimeout hInv tid
  | reconnectFires rtid =>
    show Inv (reconnectFire s rtid).1 (tr ++ (reconnectFire s rtid).2)
    unfold reconnectFire
    split
    · refine inv_extend hInv _ _ rfl rfl rfl (Nat.le_refl _) ?_ ?_
      · intro x hx
        unfold openCall at hx
        rcases List.mem_append.mp hx with h | h
        · split at h
          · rw [List.mem_singleton.mp h]
            rfl
          · cases h
        · rw [List.mem_singleton.mp h]
          rfl
      · apply allocList_of_no_alloc
        intro x hx
        unfold openCall at hx
        rcases List.mem_append.mp hx with h | h
        · split at h
          · rw [List.mem_singleton.mp h]
            rfl
          · cases h
        · rw [List.mem_singleton.mp h]
          rfl
    · simpa using hInv
  | callRequest msg tms =>
    show Inv (requestCall s msg tms).1 (tr ++ (requestCall s msg tms).2.1)
    exact inv_requestCall hInv msg tms
  | callSubscribe es => exact inv_subscribeCall hInv es
  | callClose =>
    refine inv_extend hInv _ _ rfl rfl rfl (Nat.le_refl _) ?_ ?_
    · intro x hx
      simp only [step, closeCall] at hx
      split at hx
      · rw [List.mem_singleton.mp hx]
        rfl
      · cases hx
    · show allocList (if s.hasWs then [Effect.closeTransport] else []) = []
      split <;> rfl
  | callOpen =>
    refine inv_extend hInv _ _ rfl rfl rfl (Nat.le_refl _) ?_ ?_
    · intro x hx
      show isSettle x = false
      rcases List.mem_append.mp hx with h | h
      · split at h
        · rw [List.mem_singleton.mp h]
          rfl
        · cases h
      · rw [List.mem_singleton.mp h]
        rfl
    · apply allocList_of_no_alloc
      intro x hx
      rcases List.mem_append.mp hx with h | h
      · split at h
        · rw [List.mem_singleton.mp h]
          rfl
        · cases h
      · rw [List.mem_singleton.mp h]
        rfl

theorem inv_init (opts : WSOptions) : Inv (initState opts) [] := by
  constructor
  · intro id
    exact Nat.zero_le 1
  · intro p hp
    exact absurd hp (List.not_mem_nil p)
  · exact List.nodup_nil
  · exact List.nodup_nil
  · intro t ht
    exact absurd ht (List.not_mem_nil t)
  · intro p hp
    exact absurd hp (List.not_mem_nil p)
  · intro p hp
    exact absurd hp (List.not_mem_nil p)
  · intro id hne
    exact absurd rfl hne
  · intro t ht
    exact absurd ht (List.not_mem_nil t)
  · rfl

theorem inv_run (opts : WSOptions) {s : WSState} {tr : List Effect}
    (hInv : Inv s tr) (evs : List Ev) :
    Inv (run opts s evs).1 (tr ++ (run opts s evs).2) := by
  induction evs generalizing s tr with
  | nil =>
    show Inv s (tr ++ [])
    rw [List.append_nil]
    exact hInv
  | cons ev rest ih =>
    simp only [run]
    rw [← List.append_assoc]
    exact ih (inv_step opts hInv ev)

theorem inv_reachable (opts : WSOptions) (evs : List Ev) :
    Inv (run opts (initState opts) evs).1 (run opts (initState opts) evs).2 := by
  have h := inv_run opts (inv_init opts) evs
  simpa using h

theorem response_no_settle {s : WSState} {wid : Int} (data : JVal)
    (hid : getNum (data.getField "id") = some wid)
    (hnone : mapGet s.pending wid = none) :
    ∀ x ∈ (handleMessage s data).2, isSettle x = false := by
  rcases handleMessage_cases s data with ⟨_, _, _, _, hs, _⟩ | ⟨wid2, hid2, heq⟩
  · exact hs
  · have hw : wid2 = wid := Option.some.inj (hid2.symm.trans hid)
    subst hw
    rw [heq, responseCase_none data hnone]
    exact respTailEmits_no_settle data

theorem chain_lt_range' (a n : Nat) : List.Chain' (· < ·) (List.range' a n) := by
  induction n generalizing a with
  | zero => exact List.chain'_nil
  | succ m ih =>
    rw [show List.range' a (m + 1) = a :: List.range' (a + 1) m from rfl,
      List.chain'_cons']
    refine ⟨?_, ih (a + 1)⟩
    intro y hy
    have hym : y ∈ List.range' (a + 1) m := by
      cases m with
      | zero => simp at hy
      | succ k =>
        have h2 : y = a + 1 := by
          have h4 : (List.range' (a + 1) (k + 1)).head? = some (a + 1) := rfl
          have h5 := hy
          simp only [Option.mem_def, h4] at h5
          exact (Option.some.inj h5).symm
        rw [h2]
        exact List.mem_range'_1.mpr ⟨Nat.le_refl _, by omega⟩
    have h3 := List.mem_range'_1.mp hym
    omega

end InvariantLemmas

/-- Claim C2 (confirmed): when an armed request-timeout timer fires, its
closure rejects exactly that request with the timeout `Error` message
naming the captured message `type` and the integer id, and removes the
entry from the table at that moment, so a response frame with the same
id arriving afterwards settles nothing; and across every run of the
manager from its initial state — through matching responses, timeouts
and connection closes — each request id is settled at most once. -/
theorem timeout_settles_once_and_removes (s : WSState) (tid : Nat)
    (t : TimeoutTimer)
    (hfind : s.timers.find? (fun u => u.tid == tid) = some t) :
    (fireTimeout s tid).2 =
      [Effect.settleReject t.reqId (.errObj (timeoutMsg t.reqType t.reqId))]
    ∧ mapGet (fireTimeout s tid).1.pending (t.reqId : Int) = none
    ∧ (∀ data, getNum (data.getField "id") = some ((t.reqId : Nat) : Int) →
        ∀ x ∈ (handleMessage (fireTimeout s tid).1 data).2, isSettle x = false)
    ∧ (∀ opts evs id, settleCount (run opts (initState opts) evs).2 id ≤ 1) := by
  have hred : fireTimeout s tid =
      ({ s with
           timers := s.timers.filter (fun u => !(u.tid == tid))
           pending := mapDelete s.pending (t.reqId : Int) },
       [Effect.settleReject t.reqId
          (.errObj (timeoutMsg t.reqType t.reqId))]) := by
    unfold fireTimeout
    rw [hfind]
  have hnone : mapGet (fireTimeout s tid).1.pending (t.reqId : Int) = none := by
    rw [hred]
    exact mapGet_mapDelete s.pending (t.reqId : Int)
  refine ⟨by rw [hred], hnone, ?_, ?_⟩
  · intro data hdid
    exact response_no_settle data hdid hnone
  · intro opts evs id
    exact (inv_reachable opts evs).settleOnce id

/-- Witness for C2: the pending `ping` request's timer (handle 1) fires. -/
theorem timeout_settles_once_and_removes_witness :
    (fireTimeout onePendingState 1).2 =
      [Effect.settleReject 1 (.errObj (timeoutMsg "ping" 1))]
    ∧ mapGet (fireTimeout onePendingState 1).1.pending ((1 : Nat) : Int) = none
    ∧ (∀ data, getNum (data.getField "id") = some (((1 : Nat) : Nat) : Int) →
        ∀ x ∈ (handleMessage (fireTimeout onePendingState 1).1 data).2,
          isSettle x = false)
    ∧ (∀ opts evs id, settleCount (run opts (initState opts) evs).2 id ≤ 1) :=
  timeout_settles_once_and_removes onePendingState 1 ⟨1, 1, "ping", 15000⟩
    (by decide)

/-- Claim C6 (confirmed): over any run of one manager instance from its
initial state — reconnections included, since nothing ever resets the
counter — the ids allocated by successive `request()` calls are exactly
1, 2, 3, ...: a strictly increasing sequence starting at 1 in which no
id is ever reused. -/
theorem request_ids_strictly_increasing (opts : WSOptions) (evs : List Ev) :
    allocList (run opts (initState opts) evs).2 =
      List.range' 1 (run opts (initState opts) evs).1.nextId
    ∧ List.Chain' (· < ·) (allocList (run opts (initState opts) evs).2)
    ∧ (allocList (run opts (initState opts) evs).2).Nodup
    ∧ (∀ n ∈ allocList (run opts (initState opts) evs).2, 1 ≤ n) := by
  have h := (inv_reachable opts evs).allocSeq
  refine ⟨h, ?_, ?_, ?_⟩
  · rw [h]
    exact chain_lt_range' 1 _
  · rw [h]
    exact List.nodup_range' _ _
  · intro n hn
    rw [h] at hn
    exact (List.mem_range'_1.mp hn).1

/-- Witness for C6 on a concrete run with two request calls. -/
theorem request_ids_strictly_increasing_witness :
    allocList (run defaultOpts (initState defaultOpts) c6evs).2 =
      List.range' 1 (run defaultOpts (initState defaultOpts) c6evs).1.nextId
    ∧ List.Chain' (· < ·)
        (allocList (run defaultOpts (initState defaultOpts) c6evs).2)
    ∧ (allocList (run defaultOpts (initState defaultOpts) c6evs).2).Nodup
    ∧ (∀ n ∈ allocList (run defaultOpts (initState defaultOpts) c6evs).2,
        1 ≤ n) :=
  request_ids_strictly_increasing defaultOpts c6evs

end Kromer
